import Mathlib

/-!
Shallow embedding of the recipe-discovery service
(storage backends, cache layer, external search adapter,
recipe service and the single-recipe route), together with
proofs of the specified properties.

Conventions of the embedding:
* Python `dict` recipe records become the `Rec` structure (internal
  records, integer ids) and `ExtRec` (externally sourced records,
  string ids).
* Mutating methods become state-passing functions returning the
  method's result paired with the new state.
* Python `str.lower()` and SQLite `LIKE` case folding are modelled as
  ASCII case folding (all data handled by the repository is ASCII).
* Python's substring test `a in b` is the executable `containsSub`.
-/

/-- ASCII lower-casing of one character (codes 65–90 are `A`–`Z`,
shifted by 32 to `a`–`z`), as performed both by Python `str.lower()`
(on ASCII data) and by SQLite `LIKE` comparison. -/
def lowerChar (c : Char) : Char :=
  if 65 ≤ c.toNat ∧ c.toNat ≤ 90 then Char.ofNat (c.toNat + 32) else c

/-- Lower-case a character list. -/
def lowerL (s : List Char) : List Char := s.map lowerChar

/-- `beginsWith n h` holds when `n` is an initial segment of `h`. -/
def beginsWith : List Char → List Char → Bool
  | [], _ => true
  | _ :: _, [] => false
  | a :: as, b :: bs => a == b && beginsWith as bs

/-- Python's substring containment `n in h` on character lists. -/
def containsSub (n h : List Char) : Bool :=
  match h with
  | [] => beginsWith n []
  | _ :: t => beginsWith n h || containsSub n t

/-- The recipe-field payload of a create/update request
(`RecipeCreate` in `app/models/recipe.py`): every field of a record
except the identifier. -/
structure RecFields where
  title : String
  ingredients : List String
  steps : List String
  prepTime : String
  cookTime : String
  difficulty : String
  cuisine : String
deriving DecidableEq, Repr

/-- An internal recipe record as stored by both backends. -/
structure Rec where
  id : Nat
  title : String
  ingredients : List String
  steps : List String
  prepTime : String
  cookTime : String
  difficulty : String
  cuisine : String
deriving DecidableEq, Repr

/-- Attach an identifier to a field payload
(`recipe_data["id"] = ...` in the stores). -/
def RecFields.withId (d : RecFields) (i : Nat) : Rec :=
  { id := i, title := d.title, ingredients := d.ingredients,
    steps := d.steps, prepTime := d.prepTime, cookTime := d.cookTime,
    difficulty := d.difficulty, cuisine := d.cuisine }

/-- First sample record seeded by both backends. -/
def carbonaraRec : Rec :=
  { id := 1, title := "Spaghetti Carbonara",
    ingredients := ["pasta", "eggs", "bacon", "cheese"],
    steps := ["Cook pasta", "Mix eggs", "Combine all"],
    prepTime := "10 minutes", cookTime := "15 minutes",
    difficulty := "Medium", cuisine := "Italian" }

/-- Second sample record seeded by both backends. -/
def curryRec : Rec :=
  { id := 2, title := "Chicken Curry",
    ingredients := ["chicken", "curry powder", "coconut milk", "onion", "garlic"],
    steps := ["Cook chicken", "Add onion and garlic",
              "Stir in curry powder and coconut milk", "Simmer"],
    prepTime := "15 minutes", cookTime := "30 minutes",
    difficulty := "Medium", cuisine := "Indian" }

/-- State of the in-memory backend (`RecipeStore` in
`app/storage/memory_store.py`): the record list and the `next_id`
counter. -/
structure MemState where
  recipes : List Rec
  next_id : Nat
deriving DecidableEq, Repr

namespace MemStore

/-- `RecipeStore.__init__`: two sample records, `next_id = 3`. -/
def init : MemState := { recipes := [carbonaraRec, curryRec], next_id := 3 }

/-- `RecipeStore.get_all`. -/
def get_all (s : MemState) : List Rec := s.recipes

/-- `RecipeStore.get_by_id`: first record whose id equals the request
(the route may pass any integer, hence `Int`). -/
def get_by_id (i : Int) (s : MemState) : Option Rec :=
  s.recipes.find? (fun r => (r.id : Int) == i)

/-- `RecipeStore.create`: stamp `next_id` on the payload, append,
bump the counter, return the stored record. -/
def create (d : RecFields) (s : MemState) : Rec × MemState :=
  let r := d.withId s.next_id
  (r, { recipes := s.recipes ++ [r], next_id := s.next_id + 1 })

/-- The loop body of `RecipeStore.update`: replace the first record
whose id is `i` by `r'`; `none` when no record matches. -/
def updateList (i : Nat) (r' : Rec) : List Rec → Option (List Rec)
  | [] => none
  | r :: rs =>
    if r.id == i then some (r' :: rs)
    else (updateList i r' rs).map (r :: ·)

/-- `RecipeStore.update`. -/
def update (i : Nat) (d : RecFields) (s : MemState) :
    Option Rec × MemState :=
  match updateList i (d.withId i) s.recipes with
  | some rs => (some (d.withId i), { recipes := rs, next_id := s.next_id })
  | none => (none, s)

/-- The loop body of `RecipeStore.delete`: drop the first record whose
id is `i`; `none` when no record matches. -/
def deleteFirst (i : Nat) : List Rec → Option (List Rec)
  | [] => none
  | r :: rs =>
    if r.id == i then some rs
    else (deleteFirst i rs).map (r :: ·)

/-- `RecipeStore.delete`. -/
def delete (i : Nat) (s : MemState) : Bool × MemState :=
  match deleteFirst i s.recipes with
  | some rs => (true, { recipes := rs, next_id := s.next_id })
  | none => (false, s)

/-- `RecipeStore.search`: empty query short-circuits to `[]`;
otherwise keep the records whose lower-cased title contains the
lower-cased query. -/
def search (q : String) (s : MemState) : List Rec :=
  if q = "" then []
  else s.recipes.filter
    (fun r => containsSub (lowerL q.data) (lowerL r.title.data))

end MemStore

/-- SQLite `LIKE` pattern matching (no ESCAPE clause, default
ASCII-case-insensitive collation): `%` matches any — possibly
empty — sequence of characters (realized by trying every number of
characters to skip), `_` matches exactly one character, and any other
pattern character matches one character case-insensitively. -/
def likeMatch : List Char → List Char → Bool
  | [], s => s.isEmpty
  | c :: ps, s =>
    if c = '%' then
      (List.range (s.length + 1)).any (fun n => likeMatch ps (s.drop n))
    else
      match s with
      | [] => false
      | b :: s' =>
        (if c = '_' then true else lowerChar c == lowerChar b) &&
          likeMatch ps s'

/-- State of the durable backend (`SQLiteRecipeStore` in
`app/storage/sqlite_store.py`): the table rows in rowid order (JSON
round-trips of the list fields collapsed, `_row_to_dict` applied) and
the `sqlite_sequence` counter of the AUTOINCREMENT primary key. -/
structure SqlState where
  rows : List Rec
  seq : Nat
deriving DecidableEq, Repr

/-- Insert one row into a list kept sorted by ascending id
(model of `ORDER BY id`). -/
def insertById (r : Rec) : List Rec → List Rec
  | [] => [r]
  | x :: xs => if r.id ≤ x.id then r :: x :: xs else x :: insertById r xs

/-- Sort rows by ascending id (model of `ORDER BY id`). -/
def sortById (l : List Rec) : List Rec := l.foldr insertById []

/-- Largest rowid currently in the table. -/
def maxId (l : List Rec) : Nat := l.foldr (fun r m => max r.id m) 0

namespace SqliteStore

/-- `SQLiteRecipeStore._seed_initial_data`: insert the two sample
rows with explicit ids 1 and 2 and set the sequence counter to 2,
but only when the table is empty (idempotent seeding). -/
def seed_initial_data (s : SqlState) : SqlState :=
  if s.rows.isEmpty then { rows := [carbonaraRec, curryRec], seq := 2 } else s

/-- A freshly constructed durable backend: empty table, then seeded. -/
def init : SqlState := seed_initial_data { rows := [], seq := 0 }

/-- `SQLiteRecipeStore.get_all`: `SELECT * ... ORDER BY id`. -/
def get_all (s : SqlState) : List Rec := sortById s.rows

/-- `SQLiteRecipeStore.get_by_id`: `SELECT * ... WHERE id = ?`. -/
def get_by_id (i : Int) (s : SqlState) : Option Rec :=
  s.rows.find? (fun r => (r.id : Int) == i)

/-- `SQLiteRecipeStore.create`: `INSERT` without an explicit id; the
AUTOINCREMENT primary key assigns
`max(sqlite_sequence, largest rowid) + 1` and updates the sequence. -/
def create (d : RecFields) (s : SqlState) : Rec × SqlState :=
  let i := max s.seq (maxId s.rows) + 1
  let r := d.withId i
  (r, { rows := s.rows ++ [r], seq := i })

/-- `SQLiteRecipeStore.update`: `COUNT(*)` existence check, then
`UPDATE ... SET <all fields> WHERE id = ?`. -/
def update (i : Nat) (d : RecFields) (s : SqlState) :
    Option Rec × SqlState :=
  if s.rows.any (fun r => r.id == i) then
    (some (d.withId i),
     { rows := s.rows.map (fun r => if r.id == i then d.withId i else r),
       seq := s.seq })
  else (none, s)

/-- `SQLiteRecipeStore.delete`: `DELETE ... WHERE id = ?`, reporting
whether any row was affected. -/
def delete (i : Nat) (s : SqlState) : Bool × SqlState :=
  let rows' := s.rows.filter (fun r => ¬ r.id == i)
  (s.rows.any (fun r => r.id == i),
   { rows := rows', seq := s.seq })

/-- `SQLiteRecipeStore.search`: empty query short-circuits to `[]`;
otherwise `SELECT * ... WHERE title LIKE '%' || query || '%' ORDER BY
id` — the query is spliced into a LIKE pattern, so `%` and `_` inside
it act as wildcards. -/
def search (q : String) (s : SqlState) : List Rec :=
  if q = "" then []
  else (sortById s.rows).filter
    (fun r => likeMatch ('%' :: (q.data ++ ['%'])) r.title.data)

end SqliteStore

/-- Python `str.strip()` (whitespace at both ends removed) on the
ASCII whitespace handled here. -/
def pyStrip (s : String) : String :=
  String.mk (((s.data.dropWhile Char.isWhitespace).reverse.dropWhile
    Char.isWhitespace).reverse)

/-- Python `s.split('.')` on character lists: segments between
literal period characters, empties preserved (`"".split('.') = [""]`). -/
def splitOnDot : List Char → List (List Char)
  | [] => [[]]
  | c :: rest =>
    if c = '.' then [] :: splitOnDot rest
    else
      match splitOnDot rest with
      | [] => [[c]]
      | g :: gs => (c :: g) :: gs

/-- An upstream meal item from TheMealDB payload. A field holds
`none` when it is missing from the item (or `null`); the numbered
ingredient/measure fields are indexed functions. `idMeal` is always
present (the code reads `meal['idMeal']` without a default). -/
structure Meal where
  idMeal : String
  strMeal : Option String
  strInstructions : Option String
  strArea : Option String
  strMealThumb : Option String
  strYoutube : Option String
  strIngredient : Nat → Option String
  strMeasure : Nat → Option String

/-- An externally sourced recipe record, as produced by the External
Search Adapter (string id, provenance fields). -/
structure ExtRec where
  id : String
  title : String
  ingredients : List String
  steps : List String
  prepTime : String
  cookTime : String
  difficulty : String
  cuisine : String
  source : String
  image : Option String
  video : Option String
  originalId : Option String
deriving DecidableEq, Repr

/-- Python truthiness of `ingredient and ingredient.strip()` /
`measure and measure.strip()`: present, non-empty, and non-blank. -/
def truthyStripped : Option String → Bool
  | none => false
  | some s => (s ≠ "" : Bool) && (pyStrip s ≠ "" : Bool)

namespace MealDBService

/-- One iteration of the ingredient-building loop of
`MealDBService.search_meals`: skip blank ingredients, emit
`"{measure.strip()} {ingredient.strip()}"` when the measure is
non-blank, else the stripped ingredient alone. -/
def ingredientStep (m : Meal) (acc : List String) (i : Nat) : List String :=
  if truthyStripped (m.strIngredient i) then
    if truthyStripped (m.strMeasure i) then
      acc ++ [pyStrip ((m.strMeasure i).getD "") ++ " " ++
              pyStrip ((m.strIngredient i).getD "")]
    else acc ++ [pyStrip ((m.strIngredient i).getD "")]
  else acc

/-- The ingredient-building loop of `MealDBService.search_meals`:
`for i in range(1, 21)` over `ingredientStep`. -/
def buildIngredients (m : Meal) : List String :=
  (List.range' 1 20).foldl (ingredientStep m) []

/-- The step-splitting of `MealDBService.search_meals`:
`[step.strip() for step in instructions.split('.') if step.strip()]`
with `instructions = meal.get("strInstructions", "")`. -/
def buildSteps (m : Meal) : List String :=
  (((splitOnDot (m.strInstructions.getD "").data).map
      (fun seg => pyStrip (String.mk seg))).filter
    (fun s => s ≠ ""))

/-- The per-meal transformation of `MealDBService.search_meals` from
the upstream item shape to the internal record shape. -/
def transformMeal (m : Meal) : ExtRec :=
  { id := "mealdb_" ++ m.idMeal,
    title := m.strMeal.getD "Unknown",
    ingredients := buildIngredients m,
    steps := buildSteps m,
    prepTime := "Unknown",
    cookTime := "Unknown",
    difficulty := "Medium",
    cuisine := m.strArea.getD "Unknown",
    source := "mealdb",
    image := m.strMealThumb,
    video := m.strYoutube,
    originalId := some m.idMeal }

/-- One call of `MealDBService.search_meals`, with its interactions
with the environment passed in explicitly: `firstRead` is what the
initial cache read returns, `upstream` is the outcome of the HTTP
request (`.error` for any exception: timeout, non-success status,
malformed payload, missing keys), and `fallbackRead` is what the
cache read in the `except` branch returns (the cache may have become
reachable or unreachable between the two reads). The empty meal list
stands for a payload whose `meals` key is missing, null or empty. -/
def search_meals (q : String) (firstRead : Option (List ExtRec))
    (upstream : Except Unit (List Meal))
    (fallbackRead : Option (List ExtRec)) : List ExtRec :=
  if q = "" then []
  else
    match firstRead with
    | some cached => cached
    | none =>
      match upstream with
      | .ok meals =>
        if meals.isEmpty then []
        else meals.map transformMeal
      | .error _ =>
        match fallbackRead with
        | some cached => cached
        | none => []

end MealDBService

/-- `json.dumps` of a string value (escaping of exotic characters is
immaterial for the records handled here). -/
def dumpStr (s : String) : String := "\"" ++ s ++ "\""

/-- `json.dumps` of an optional string value. -/
def dumpOpt : Option String → String
  | none => "null"
  | some s => dumpStr s

/-- `json.dumps` of a list of strings. -/
def dumpStrList (l : List String) : String :=
  "[" ++ String.intercalate "," (l.map dumpStr) ++ "]"

/-- `json.dumps` of one external record (a JSON object). -/
def dumpRec (r : ExtRec) : String :=
  "\x7b\"id\":" ++ dumpStr r.id ++
  ",\"title\":" ++ dumpStr r.title ++
  ",\"ingredients\":" ++ dumpStrList r.ingredients ++
  ",\"steps\":" ++ dumpStrList r.steps ++
  ",\"prepTime\":" ++ dumpStr r.prepTime ++
  ",\"cookTime\":" ++ dumpStr r.cookTime ++
  ",\"difficulty\":" ++ dumpStr r.difficulty ++
  ",\"cuisine\":" ++ dumpStr r.cuisine ++
  ",\"source\":" ++ dumpStr r.source ++
  ",\"image\":" ++ dumpOpt r.image ++
  ",\"video\":" ++ dumpOpt r.video ++
  ",\"originalId\":" ++ dumpOpt r.originalId ++ "\x7d"

/-- `json.dumps` of a result list, the payload actually stored in
Redis by the cache layer; the empty list serializes to `"[]"`,
a non-empty string. -/
def dumps (rs : List ExtRec) : String :=
  "[" ++ String.intercalate "," (rs.map dumpRec) ++ "]"

/-- State of the Redis connection seen by `CacheService`: whether
`_is_connected()` succeeds, and the key-value store (values kept in
deserialized form; `json.loads (json.dumps v) = v`). -/
structure CacheState where
  connected : Bool
  kv : List (String × List ExtRec)
deriving Repr

/-- Redis `GET`: first binding of the key. -/
def kvGet (k : String) : List (String × List ExtRec) → Option (List ExtRec)
  | [] => none
  | (k', v) :: rest => if k' = k then some v else kvGet k rest

namespace CacheService

/-- `CacheService._generate_cache_key`: namespace plus the MD5 hex
digest of the lower-cased query; the digest is modelled by the
lower-cased query itself (an injective stand-in). -/
def generate_cache_key (q : String) : String :=
  "mealdb:search:" ++ String.mk (lowerL q.data)

/-- `CacheService.get_mealdb_results`: `None` on empty query or when
disconnected; otherwise read the key and return the parsed payload
when the stored string `cached_data` is truthy (non-empty) — which
the serialized form of every list is, `"[]"` included. -/
def get_mealdb_results (q : String) (c : CacheState) :
    Option (List ExtRec) :=
  if q = "" then none
  else if c.connected then
    match kvGet (generate_cache_key q) c.kv with
    | some rs => if dumps rs ≠ "" then some rs else none
    | none => none
  else none

/-- `CacheService.set_mealdb_results`: no-op returning `False` on
empty query or when disconnected; otherwise `SETEX` the serialized
results under the generated key. -/
def set_mealdb_results (q : String) (rs : List ExtRec)
    (c : CacheState) : Bool × CacheState :=
  if q = "" then (false, c)
  else if c.connected then
    (true, { c with kv := (generate_cache_key q, rs) :: c.kv })
  else (false, c)

end CacheService

/-- The slice of the Storage Interface the service and the routes
consult, with the backend state baked in (one request snapshot). -/
structure StorageOps where
  search : String → List Rec
  get_by_id : Int → Option Rec

/-- The in-memory backend viewed through the storage interface. -/
def MemStore.ops (s : MemState) : StorageOps :=
  { search := fun q => MemStore.search q s,
    get_by_id := fun i => MemStore.get_by_id i s }

/-- The durable backend viewed through the storage interface. -/
def SqliteStore.ops (s : SqlState) : StorageOps :=
  { search := fun q => SqliteStore.search q s,
    get_by_id := fun i => SqliteStore.get_by_id i s }

namespace RecipeService

/-- `RecipeService.search_recipes` in
`app/services/recipe_service.py`: it returns
`self.storage.search(query)` and consults nothing else — in
particular it never invokes the External Search Adapter. -/
def search_recipes (storage : StorageOps) (q : String) : List Rec :=
  storage.search q

/-- `RecipeService.get_recipe_by_id`. -/
def get_recipe_by_id (storage : StorageOps) (i : Int) : Option Rec :=
  storage.get_by_id i

end RecipeService

/-- Outcome of the single-recipe route: a 200 with a record, or a
404 with a detail message. -/
inductive RouteResult where
  | ok : Rec → RouteResult
  | notFound : String → RouteResult
deriving DecidableEq, Repr

/-- `get_recipe` in `app/routers/recipes.py` on the raw path value.
FastAPI's `Union[int, str]` hands the handler an `int` when the path
value parses as one — such a value can never start with `"mealdb_"` —
so checking the external marker on the raw string first is equivalent
to the source's `isinstance(recipe_id, str)` guard. Then `int(...)`
is attempted, a `ValueError` becoming a 404, and only then is storage
consulted. -/
def get_recipe (raw : String) (storage : StorageOps) : RouteResult :=
  if beginsWith "mealdb_".data raw.data then
    .notFound "External recipes can only be accessed through search"
  else
    match raw.toInt? with
    | none => .notFound "Recipe not found"
    | some n =>
      match RecipeService.get_recipe_by_id storage n with
      | some r => .ok r
      | none => .notFound "Recipe not found"

/-- Restatement of the spec's transformation sentence, per ingredient
slot: skip blank ingredients; when both measure and ingredient are
non-blank emit them joined by a single space, else the ingredient
alone (blank meaning empty after trimming). -/
def specIngredientAt (m : Meal) (i : Nat) : Option String :=
  match m.strIngredient i with
  | none => none
  | some ing =>
    if pyStrip ing = "" then none
    else
      match m.strMeasure i with
      | none => some (pyStrip ing)
      | some mea =>
        if pyStrip mea = "" then some (pyStrip ing)
        else some (pyStrip mea ++ " " ++ pyStrip ing)

/-- Restatement of the spec's transformation sentence for a whole
upstream item: prefixed identifier, name-or-"Unknown" title,
ingredient/measure pairs 1 through 20, instructions split on the
literal period with blanks discarded, fixed defaults elsewhere. -/
def specMealRecipe (m : Meal) : ExtRec :=
  { id := "mealdb_" ++ m.idMeal,
    title := match m.strMeal with | some t => t | none => "Unknown",
    ingredients := (List.range' 1 20).filterMap (specIngredientAt m),
    steps := (splitOnDot ((match m.strInstructions with
        | some t => t | none => "").data)).filterMap
      (fun seg =>
        if pyStrip (String.mk seg) = "" then none
        else some (pyStrip (String.mk seg))),
    prepTime := "Unknown",
    cookTime := "Unknown",
    difficulty := "Medium",
    cuisine := match m.strArea with | some a => a | none => "Unknown",
    source := "mealdb",
    image := m.strMealThumb,
    video := m.strYoutube,
    originalId := some m.idMeal }

/-- One mutating storage operation, as issued through the service. -/
inductive Op where
  | create : RecFields → Op
  | update : Nat → RecFields → Op
  | delete : Nat → Op

/-- Effect of one operation on the in-memory backend. -/
def MemStore.step (s : MemState) : Op → MemState
  | .create d => (MemStore.create d s).2
  | .update i d => (MemStore.update i d s).2
  | .delete i => (MemStore.delete i s).2

/-- The in-memory backend after a sequence of operations from its
initial state. -/
def MemStore.run (ops : List Op) : MemState :=
  ops.foldl MemStore.step MemStore.init

/-- Effect of one operation on the durable backend. -/
def SqliteStore.step (s : SqlState) : Op → SqlState
  | .create d => (SqliteStore.create d s).2
  | .update i d => (SqliteStore.update i d s).2
  | .delete i => (SqliteStore.delete i s).2

/-- The durable backend after a sequence of operations from its
freshly seeded state. -/
def SqliteStore.run (ops : List Op) : SqlState :=
  ops.foldl SqliteStore.step SqliteStore.init

/-- Identifier discipline of the in-memory backend: every stored id
is below the `next_id` counter, and ids are pairwise distinct. -/
def MemInv (s : MemState) : Prop :=
  (∀ r ∈ s.recipes, r.id < s.next_id) ∧ (s.recipes.map (·.id)).Nodup

/-- Identifier discipline of the durable backend: every stored id is
at most the AUTOINCREMENT sequence value, and ids are pairwise
distinct. -/
def SqlInv (s : SqlState) : Prop :=
  (∀ r ∈ s.rows, r.id ≤ s.seq) ∧ (s.rows.map (·.id)).Nodup

/-- The create payload of the spec's test scenario. -/
def sampleFields : RecFields :=
  { title := "Test Pancakes",
    ingredients := ["flour", "milk", "egg", "sugar"],
    steps := ["Mix", "Cook"],
    prepTime := "5 minutes", cookTime := "10 minutes",
    difficulty := "Easy", cuisine := "American" }

/-- A concrete upstream meal item used as evaluation input. -/
def sampleMeal : Meal :=
  { idMeal := "52940",
    strMeal := some "Brown Stew Chicken",
    strInstructions := some "Squeeze lime. Rub chicken. ",
    strArea := some "Jamaican",
    strMealThumb := some "https://example.invalid/thumb.jpg",
    strYoutube := none,
    strIngredient := fun i =>
      if i = 1 then some "Chicken" else if i = 2 then some " Lime " else none,
    strMeasure := fun i => if i = 1 then some "1 whole " else none }

/-- C10: a freshly constructed in-memory backend is not empty: it
holds exactly the two sample records, id 1 "Spaghetti Carbonara" and
id 2 "Chicken Curry", its next identifier is 3, `get_all` returns
exactly those two records, and the freshly seeded durable backend's
`get_all` returns the same sample set. -/
theorem mem_init_two_sample_records :
    MemStore.init.recipes = [carbonaraRec, curryRec]
    ∧ carbonaraRec.id = 1 ∧ carbonaraRec.title = "Spaghetti Carbonara"
    ∧ curryRec.id = 2 ∧ curryRec.title = "Chicken Curry"
    ∧ MemStore.init.next_id = 3
    ∧ MemStore.get_all MemStore.init = [carbonaraRec, curryRec]
    ∧ SqliteStore.get_all SqliteStore.init = MemStore.get_all MemStore.init
    ∧ MemStore.init.recipes.length = 2 := by
  decide

/-- C2: searching with the empty query returns the empty sequence for
the in-memory store, the durable store, and the External Search
Adapter, whatever the stored records, the cache reads, and the
upstream outcome are. -/
theorem search_empty_query_returns_empty :
    (∀ s : MemState, MemStore.search "" s = [])
    ∧ (∀ st : SqlState, SqliteStore.search "" st = [])
    ∧ (∀ (fr : Option (List ExtRec)) (u : Except Unit (List Meal))
        (fb : Option (List ExtRec)),
        MealDBService.search_meals "" fr u fb = []) := by
  refine ⟨fun s => ?_, fun st => ?_, fun fr u fb => ?_⟩ <;>
    simp [MemStore.search, SqliteStore.search, MealDBService.search_meals]

/-- C9: any identifier carrying the external `"mealdb_"` marker given
to the single-recipe route yields the 404 not-found outcome (never a
parse or server error), and the outcome is the same whatever the
storage contents are — the route consults no storage for such
identifiers. -/
theorem get_recipe_external_id_404 :
    ∀ (raw : String) (s₁ s₂ : StorageOps),
      beginsWith "mealdb_".data raw.data = true →
      get_recipe raw s₁ =
        RouteResult.notFound "External recipes can only be accessed through search"
      ∧ get_recipe raw s₁ = get_recipe raw s₂ := by
  intro raw s₁ s₂ h
  constructor <;> simp [get_recipe, h]

/-- C9 witness: the spec's concrete scenario, `"mealdb_52772"`
against the seeded in-memory backend. -/
theorem get_recipe_external_id_404_witness :
    get_recipe "mealdb_52772" (MemStore.ops MemStore.init) =
      RouteResult.notFound "External recipes can only be accessed through search" :=
  (get_recipe_external_id_404 "mealdb_52772" (MemStore.ops MemStore.init)
    (SqliteStore.ops SqliteStore.init) (by decide)).1

/-- C7: on a cache miss followed by any upstream failure, the adapter
returns exactly the result of the one fallback cache read — the
cached value when present, the empty sequence when absent — and (the
embedding being a total function into lists) never an error. -/
theorem search_meals_upstream_failure_falls_back :
    ∀ (q : String) (e : Unit) (fb : Option (List ExtRec)),
      q ≠ "" →
      MealDBService.search_meals q none (.error e) fb =
        (match fb with | some cached => cached | none => [])
      ∧ (∀ cached, MealDBService.search_meals q none (.error e) (some cached) = cached)
      ∧ MealDBService.search_meals q none (.error e) none = [] := by
  intro q e fb hq
  refine ⟨?_, fun cached => ?_, ?_⟩ <;>
    simp [MealDBService.search_meals, hq]

/-- C7 witness: concrete query, one concrete cached fallback value
and one absent fallback. -/
theorem search_meals_upstream_failure_falls_back_witness :
    MealDBService.search_meals "chicken" none (.error ())
        (some [MealDBService.transformMeal sampleMeal]) =
      [MealDBService.transformMeal sampleMeal]
    ∧ MealDBService.search_meals "chicken" none (.error ()) none = [] :=
  ⟨(search_meals_upstream_failure_falls_back "chicken" ()
      (some [MealDBService.transformMeal sampleMeal]) (by decide)).2.1 _,
   (search_meals_upstream_failure_falls_back "chicken" () none (by decide)).2.2⟩

/-- C8: writing an empty result list for a query makes a later cache
read for that query a present-empty hit (`some []`, distinct from
absent), and an adapter call fed that hit returns the empty list
whatever the upstream would do. -/
theorem cached_empty_result_is_distinct_hit :
    ∀ (c : CacheState) (q : String) (u : Except Unit (List Meal))
      (fb : Option (List ExtRec)),
      q ≠ "" → c.connected = true →
      CacheService.get_mealdb_results q
          (CacheService.set_mealdb_results q [] c).2 = some []
      ∧ (some ([] : List ExtRec) ≠ none)
      ∧ MealDBService.search_meals q
          (CacheService.get_mealdb_results q
            (CacheService.set_mealdb_results q [] c).2) u fb = [] := by
  intro c q u fb hq hc
  have hset : (CacheService.set_mealdb_results q [] c).2 =
      { c with kv := (CacheService.generate_cache_key q, []) :: c.kv } := by
    simp [CacheService.set_mealdb_results, hq, hc]
  have hdumps : dumps ([] : List ExtRec) = "[]" := rfl
  have hget : CacheService.get_mealdb_results q
      (CacheService.set_mealdb_results q [] c).2 = some [] := by
    rw [hset]
    simp [CacheService.get_mealdb_results, hq, hc, kvGet, hdumps]
  refine ⟨hget, by simp, ?_⟩
  rw [hget]
  simp [MealDBService.search_meals, hq]

/-- C8 witness: concrete connected cache and query. -/
theorem cached_empty_result_is_distinct_hit_witness :
    CacheService.get_mealdb_results "chicken"
        (CacheService.set_mealdb_results "chicken" [] ⟨true, []⟩).2 = some []
    ∧ (some ([] : List ExtRec) ≠ none)
    ∧ MealDBService.search_meals "chicken"
        (CacheService.get_mealdb_results "chicken"
          (CacheService.set_mealdb_results "chicken" [] ⟨true, []⟩).2)
        (.ok [sampleMeal]) none = [] :=
  cached_empty_result_is_distinct_hit ⟨true, []⟩ "chicken" (.ok [sampleMeal])
    none (by decide) rfl

/-- C1 (code bug): the service's search returns only the internal
matches. At query `"chicken"` on the seeded in-memory backend it
returns exactly the internal "Chicken Curry" record, although the
External Search Adapter for the very same query yields a non-empty
result — which the claimed concatenation would have appended. -/
theorem service_search_returns_internal_only :
    RecipeService.search_recipes (MemStore.ops MemStore.init) "chicken" = [curryRec]
    ∧ MealDBService.search_meals "chicken" none (.ok [sampleMeal]) none =
        [MealDBService.transformMeal sampleMeal]
    ∧ ([MealDBService.transformMeal sampleMeal] : List ExtRec) ≠ [] := by
  refine ⟨by decide, by decide, by decide⟩

theorem pyStrip_empty : pyStrip "" = "" := rfl

theorem truthyStripped_iff (s : String) :
    truthyStripped (some s) = true ↔ pyStrip s ≠ "" := by
  constructor
  · intro h
    simp [truthyStripped] at h
    exact h.2
  · intro h
    have hne : s ≠ "" := by
      intro he
      subst he
      exact h pyStrip_empty
    simp [truthyStripped, h, hne]

theorem ingredientStep_eq_spec (m : Meal) (i : Nat) (acc : List String) :
    MealDBService.ingredientStep m acc i =
      acc ++ (specIngredientAt m i).toList := by
  unfold MealDBService.ingredientStep specIngredientAt
  cases hi : m.strIngredient i with
  | none => simp [truthyStripped]
  | some ing =>
    by_cases hs : pyStrip ing = ""
    · have ht : truthyStripped (some ing) = false := by
        simp [truthyStripped, hs]
      simp [ht, hs]
    · have ht : truthyStripped (some ing) = true :=
        (truthyStripped_iff ing).mpr hs
      have hne : ing ≠ "" := by
        intro he
        subst he
        exact hs pyStrip_empty
      cases hm : m.strMeasure i with
      | none => simp [ht, truthyStripped, hs, hne]
      | some mea =>
        by_cases hms : pyStrip mea = ""
        · have htm : truthyStripped (some mea) = false := by
            simp [truthyStripped, hms]
          simp [ht, htm, hs, hms]
        · have htm : truthyStripped (some mea) = true :=
            (truthyStripped_iff mea).mpr hms
          simp [ht, htm, hs, hms]

theorem foldl_ingredientStep (m : Meal) :
    ∀ (l : List Nat) (acc : List String),
      l.foldl (MealDBService.ingredientStep m) acc =
        acc ++ l.filterMap (specIngredientAt m) := by
  intro l
  induction l with
  | nil => simp
  | cons a t ih =>
    intro acc
    rw [List.foldl_cons, ih, ingredientStep_eq_spec, List.filterMap_cons]
    cases specIngredientAt m a <;> simp

theorem map_filter_ne_empty_eq_filterMap {α : Type} (f : α → String) :
    ∀ l : List α,
      ((l.map f).filter (fun s => s ≠ "")) =
        l.filterMap (fun x => if f x = "" then none else some (f x)) := by
  intro l
  induction l with
  | nil => simp
  | cons a t ih =>
    by_cases h : f a = "" <;> simp [h] <;> rw [← ih] <;> simp

/-- C6: the External Search Adapter's per-item transformation agrees,
on every upstream meal item, with the spec's description
(`specMealRecipe`): prefixed identifier, name-or-"Unknown" title, the
20-slot ingredient/measure scan, and period-split trimmed non-blank
steps in order. -/
theorem transform_meal_matches_spec :
    ∀ m : Meal, MealDBService.transformMeal m = specMealRecipe m := by
  intro m
  have hing : MealDBService.buildIngredients m =
      (List.range' 1 20).filterMap (specIngredientAt m) := by
    rw [MealDBService.buildIngredients, foldl_ingredientStep]
    simp
  have hsteps : MealDBService.buildSteps m =
      (splitOnDot ((match m.strInstructions with
          | some t => t | none => "").data)).filterMap
        (fun seg =>
          if pyStrip (String.mk seg) = "" then none
          else some (pyStrip (String.mk seg))) := by
    rw [MealDBService.buildSteps,
        map_filter_ne_empty_eq_filterMap (fun seg => pyStrip (String.mk seg))]
    cases m.strInstructions <;> rfl
  unfold MealDBService.transformMeal specMealRecipe
  rw [hing, hsteps]
  cases m.strMeal <;> cases m.strArea <;> rfl

theorem updateList_eq_none_iff (i : Nat) (r' : Rec) :
    ∀ l : List Rec,
      MemStore.updateList i r' l = none ↔ ∀ r ∈ l, r.id ≠ i := by
  intro l
  induction l with
  | nil => simp [MemStore.updateList]
  | cons a t ih =>
    by_cases h : a.id = i
    · simp [MemStore.updateList, h]
    · simp [MemStore.updateList, h, ih]

theorem updateList_frame (i : Nat) (r' : Rec) (hr' : r'.id = i) :
    ∀ l l' : List Rec,
      MemStore.updateList i r' l = some l' →
      r' ∈ l' ∧
        l'.filter (fun x => x.id != i) = l.filter (fun x => x.id != i) := by
  intro l
  induction l with
  | nil => intro l' h; simp [MemStore.updateList] at h
  | cons a t ih =>
    intro l' h
    by_cases ha : a.id = i
    · simp [MemStore.updateList, ha] at h
      subst h
      refine ⟨List.mem_cons_self _ _, ?_⟩
      simp [List.filter_cons, hr', ha]
    · simp [MemStore.updateList, ha] at h
      obtain ⟨l'', h1, h2⟩ := h
      subst h2
      obtain ⟨hm, hf⟩ := ih l'' h1
      refine ⟨List.mem_cons_of_mem _ hm, ?_⟩
      simp [List.filter_cons, ha, hf]

theorem map_replace_filter (i : Nat) (d : RecFields) :
    ∀ l : List Rec,
      ((l.map (fun r => if r.id == i then d.withId i else r)).filter
        (fun x => x.id != i)) = l.filter (fun x => x.id != i) := by
  intro l
  induction l with
  | nil => simp
  | cons a t ih =>
    by_cases h : a.id = i
    · have hga : (if (a.id == i) = true then d.withId i else a) = d.withId i := by
        simp [h]
      have h1 : ¬ (((d.withId i).id != i) = true) := by simp [RecFields.withId]
      have h2 : ¬ ((a.id != i) = true) := by simp [h]
      simp only [List.map_cons, List.filter_cons, hga, if_neg h1, if_neg h2]
      exact ih
    · have hga : (if (a.id == i) = true then d.withId i else a) = a := by
        simp [h]
      have h2 : (a.id != i) = true := by simp [h]
      simp only [List.map_cons, List.filter_cons, hga, if_pos h2]
      rw [ih]

/-- C4: on either backend, `update id data` returns absent and leaves
the state unchanged when no record has that id; when one does, it
returns the payload stamped with that same id, stores it, leaves
every record with a different id unchanged, and leaves the id
counter unchanged. -/
theorem update_absent_or_frame :
    ∀ (i : Nat) (d : RecFields) (s : MemState) (st : SqlState),
      ((∀ r ∈ s.recipes, r.id ≠ i) → MemStore.update i d s = (none, s))
      ∧ ((∃ r ∈ s.recipes, r.id = i) →
          (MemStore.update i d s).1 = some (d.withId i)
          ∧ (d.withId i).id = i
          ∧ (d.withId i) ∈ (MemStore.update i d s).2.recipes
          ∧ ((MemStore.update i d s).2.recipes.filter (fun x => x.id != i)
              = s.recipes.filter (fun x => x.id != i))
          ∧ (MemStore.update i d s).2.next_id = s.next_id)
      ∧ ((∀ r ∈ st.rows, r.id ≠ i) → SqliteStore.update i d st = (none, st))
      ∧ ((∃ r ∈ st.rows, r.id = i) →
          (SqliteStore.update i d st).1 = some (d.withId i)
          ∧ (d.withId i) ∈ (SqliteStore.update i d st).2.rows
          ∧ ((SqliteStore.update i d st).2.rows.filter (fun x => x.id != i)
              = st.rows.filter (fun x => x.id != i))
          ∧ (SqliteStore.update i d st).2.seq = st.seq) := by
  intro i d s st
  refine ⟨?_, ?_, ?_, ?_⟩
  · intro h
    have hn : MemStore.updateList i (d.withId i) s.recipes = none :=
      (updateList_eq_none_iff i _ s.recipes).mpr h
    simp [MemStore.update, hn]
  · intro h
    obtain ⟨r, hr, hid⟩ := h
    cases hu : MemStore.updateList i (d.withId i) s.recipes with
    | none =>
      exact absurd hid ((updateList_eq_none_iff i _ s.recipes).mp hu r hr)
    | some l' =>
      obtain ⟨hm, hf⟩ := updateList_frame i (d.withId i) rfl s.recipes l' hu
      have h1 : MemStore.update i d s =
          (some (d.withId i), { recipes := l', next_id := s.next_id }) := by
        simp [MemStore.update, hu]
      rw [h1]
      exact ⟨rfl, rfl, hm, hf, rfl⟩
  · intro h
    have hn : st.rows.any (fun r => r.id == i) = false := by
      simp only [List.any_eq_false]
      intro r hr
      simpa using h r hr
    simp [SqliteStore.update, hn]
  · intro h
    obtain ⟨r, hr, hid⟩ := h
    have ha : st.rows.any (fun r => r.id == i) = true := by
      simp only [List.any_eq_true]
      exact ⟨r, hr, by simpa using hid⟩
    have hmem : (d.withId i) ∈ st.rows.map
        (fun r => if r.id == i then d.withId i else r) := by
      refine List.mem_map.mpr ⟨r, hr, ?_⟩
      simp [hid]
    have h1 : SqliteStore.update i d st =
        (some (d.withId i),
         { rows := st.rows.map (fun r => if r.id == i then d.withId i else r),
           seq := st.seq }) := by
      simp [SqliteStore.update, ha]
    rw [h1]
    exact ⟨rfl, hmem, map_replace_filter i d st.rows, rfl⟩

/-- C4 witness: both backends at their seeded states, an absent id
(999) and a present id (1). -/
theorem update_absent_or_frame_witness :
    MemStore.update 999 sampleFields MemStore.init = (none, MemStore.init)
    ∧ (MemStore.update 1 sampleFields MemStore.init).1 =
        some (sampleFields.withId 1)
    ∧ SqliteStore.update 999 sampleFields SqliteStore.init =
        (none, SqliteStore.init)
    ∧ (SqliteStore.update 1 sampleFields SqliteStore.init).1 =
        some (sampleFields.withId 1) :=
  ⟨(update_absent_or_frame 999 sampleFields MemStore.init SqliteStore.init).1
      (by decide),
   ((update_absent_or_frame 1 sampleFields MemStore.init SqliteStore.init).2.1
      (by decide)).1,
   (update_absent_or_frame 999 sampleFields MemStore.init SqliteStore.init).2.2.1
      (by decide),
   ((update_absent_or_frame 1 sampleFields MemStore.init SqliteStore.init).2.2.2
      (by decide)).1⟩

theorem mem_step_next_id_mono (s : MemState) (op : Op) :
    s.next_id ≤ (MemStore.step s op).next_id := by
  cases op with
  | create d => simp [MemStore.step, MemStore.create]
  | update i d =>
    cases h : MemStore.updateList i (d.withId i) s.recipes <;>
      simp [MemStore.step, MemStore.update, h]
  | delete i =>
    cases h : MemStore.deleteFirst i s.recipes <;>
      simp [MemStore.step, MemStore.delete, h]

theorem mem_foldl_next_id_mono :
    ∀ (ops : List Op) (s : MemState),
      s.next_id ≤ (ops.foldl MemStore.step s).next_id := by
  intro ops
  induction ops with
  | nil => intro s; simp
  | cons op t ih =>
    intro s
    exact le_trans (mem_step_next_id_mono s op) (ih (MemStore.step s op))

theorem sql_step_seq_mono (s : SqlState) (op : Op) :
    s.seq ≤ (SqliteStore.step s op).seq := by
  cases op with
  | create d =>
    simp [SqliteStore.step, SqliteStore.create]
    omega
  | update i d =>
    by_cases h : s.rows.any (fun r => r.id == i) <;>
      simp [SqliteStore.step, SqliteStore.update, h]
  | delete i => simp [SqliteStore.step, SqliteStore.delete]

theorem sql_foldl_seq_mono :
    ∀ (ops : List Op) (s : SqlState),
      s.seq ≤ (ops.foldl SqliteStore.step s).seq := by
  intro ops
  induction ops with
  | nil => intro s; simp
  | cons op t ih =>
    intro s
    exact le_trans (sql_step_seq_mono s op) (ih (SqliteStore.step s op))

theorem updateList_map_id (i : Nat) (r' : Rec) (hr' : r'.id = i) :
    ∀ l l' : List Rec, MemStore.updateList i r' l = some l' →
      l'.map (·.id) = l.map (·.id) := by
  intro l
  induction l with
  | nil => intro l' h; simp [MemStore.updateList] at h
  | cons a t ih =>
    intro l' h
    by_cases ha : a.id = i
    · simp [MemStore.updateList, ha] at h
      subst h
      simp [hr', ha]
    · simp [MemStore.updateList, ha] at h
      obtain ⟨l'', h1, h2⟩ := h
      subst h2
      simp [ih l'' h1]

theorem deleteFirst_sublist (i : Nat) :
    ∀ l l' : List Rec, MemStore.deleteFirst i l = some l' → l'.Sublist l := by
  intro l
  induction l with
  | nil => intro l' h; simp [MemStore.deleteFirst] at h
  | cons a t ih =>
    intro l' h
    by_cases ha : a.id = i
    · simp [MemStore.deleteFirst, ha] at h
      subst h
      exact List.sublist_cons_self a t
    · simp [MemStore.deleteFirst, ha] at h
      obtain ⟨l'', h1, h2⟩ := h
      subst h2
      exact List.Sublist.cons₂ a (ih l'' h1)

theorem mem_step_inv (s : MemState) (op : Op) (h : MemInv s) :
    MemInv (MemStore.step s op) := by
  obtain ⟨hb, hd⟩ := h
  cases op with
  | create d =>
    constructor
    · intro r hr
      simp [MemStore.step, MemStore.create] at hr ⊢
      rcases hr with hr | hr
      · exact lt_trans (hb r hr) (Nat.lt_succ_self _)
      · subst hr
        exact Nat.lt_succ_self _
    · simp [MemStore.step, MemStore.create, List.nodup_append]
      refine ⟨hd, ?_⟩
      intro a ha hcontra
      have h2 : a.id = s.next_id := by simpa [RecFields.withId] using hcontra
      have h3 := hb a ha
      omega
  | update i d =>
    cases hu : MemStore.updateList i (d.withId i) s.recipes with
    | none => simpa [MemStore.step, MemStore.update, hu] using ⟨hb, hd⟩
    | some l' =>
      have hmap := updateList_map_id i (d.withId i) rfl s.recipes l' hu
      constructor
      · intro r hr
        simp [MemStore.step, MemStore.update, hu] at hr ⊢
        have : r.id ∈ l'.map (·.id) := List.mem_map_of_mem _ hr
        rw [hmap] at this
        obtain ⟨x, hx, hxid⟩ := List.mem_map.mp this
        rw [← hxid]
        exact hb x hx
      · simp only [MemStore.step, MemStore.update, hu]
        rw [hmap]
        exact hd
  | delete i =>
    cases hdel : MemStore.deleteFirst i s.recipes with
    | none => simpa [MemStore.step, MemStore.delete, hdel] using ⟨hb, hd⟩
    | some l' =>
      have hsub := deleteFirst_sublist i s.recipes l' hdel
      constructor
      · intro r hr
        simp [MemStore.step, MemStore.delete, hdel] at hr ⊢
        exact hb r (hsub.subset hr)
      · simp only [MemStore.step, MemStore.delete, hdel]
        exact hd.sublist (hsub.map (·.id))

theorem map_replace_id (i : Nat) (d : RecFields) :
    ∀ l : List Rec,
      ((l.map (fun r => if r.id == i then d.withId i else r)).map (·.id)) =
        l.map (·.id) := by
  intro l
  induction l with
  | nil => simp
  | cons a t ih =>
    by_cases ha : a.id = i
    · have hga : (if (a.id == i) = true then d.withId i else a) = d.withId i := by
        simp [ha]
      simp only [List.map_cons, hga, ih]
      simp [RecFields.withId, ha]
    · have hga : (if (a.id == i) = true then d.withId i else a) = a := by
        simp [ha]
      simp only [List.map_cons, hga, ih]

theorem sql_step_inv (s : SqlState) (op : Op) (h : SqlInv s) :
    SqlInv (SqliteStore.step s op) := by
  obtain ⟨hb, hd⟩ := h
  cases op with
  | create d =>
    constructor
    · intro r hr
      simp [SqliteStore.step, SqliteStore.create] at hr ⊢
      rcases hr with hr | hr
      · exact le_trans (le_trans (hb r hr) (le_max_left _ _)) (Nat.le_succ _)
      · subst hr
        simp [RecFields.withId]
    · simp [SqliteStore.step, SqliteStore.create, List.nodup_append]
      refine ⟨hd, ?_⟩
      intro a ha hcontra
      have h2 : a.id = max s.seq (maxId s.rows) + 1 := by
        simpa [RecFields.withId] using hcontra
      have h3 : a.id ≤ max s.seq (maxId s.rows) :=
        le_trans (hb a ha) (le_max_left _ _)
      omega
  | update i d =>
    by_cases hu : s.rows.any (fun r => r.id == i)
    · have hmap := map_replace_id i d s.rows
      constructor
      · intro r hr
        simp only [SqliteStore.step, SqliteStore.update, if_pos hu] at hr ⊢
        have : r.id ∈ (s.rows.map
            (fun r => if r.id == i then d.withId i else r)).map (·.id) :=
          List.mem_map_of_mem _ hr
        rw [hmap] at this
        obtain ⟨x, hx, hxid⟩ := List.mem_map.mp this
        rw [← hxid]
        exact hb x hx
      · simp only [SqliteStore.step, SqliteStore.update, if_pos hu]
        rw [hmap]
        exact hd
    · simpa [SqliteStore.step, SqliteStore.update, hu] using ⟨hb, hd⟩
  | delete i =>
    constructor
    · intro r hr
      simp [SqliteStore.step, SqliteStore.delete] at hr
      exact hb r hr.1
    · simp only [SqliteStore.step, SqliteStore.delete]
      have hsub : (s.rows.filter (fun r => ¬ r.id == i)).Sublist s.rows :=
        List.filter_sublist _
      exact hd.sublist (hsub.map (·.id))

theorem mem_foldl_inv :
    ∀ (ops : List Op) (s : MemState), MemInv s →
      MemInv (ops.foldl MemStore.step s) := by
  intro ops
  induction ops with
  | nil => intro s h; simpa using h
  | cons op t ih =>
    intro s h
    exact ih (MemStore.step s op) (mem_step_inv s op h)

theorem sql_foldl_inv :
    ∀ (ops : List Op) (s : SqlState), SqlInv s →
      SqlInv (ops.foldl SqliteStore.step s) := by
  intro ops
  induction ops with
  | nil => intro s h; simpa using h
  | cons op t ih =>
    intro s h
    exact ih (SqliteStore.step s op) (sql_step_inv s op h)

theorem mem_inv_init : MemInv MemStore.init := by
  unfold MemInv
  exact ⟨by decide, by decide⟩

theorem sql_inv_init : SqlInv SqliteStore.init := by
  unfold SqlInv
  exact ⟨by decide, by decide⟩

theorem mem_create_spec (s : MemState) (h : MemInv s) (d : RecFields) :
    (MemStore.create d s).1.id = s.next_id
    ∧ (MemStore.create d s).1.id ∉ s.recipes.map (·.id)
    ∧ MemStore.get_by_id ((MemStore.create d s).1.id : Int)
        (MemStore.create d s).2 = some (MemStore.create d s).1 := by
  refine ⟨rfl, ?_, ?_⟩
  · intro hmem
    obtain ⟨r, hr, hid⟩ := List.mem_map.mp hmem
    have := h.1 r hr
    have hid' : r.id = s.next_id := hid
    omega
  · have hnone : s.recipes.find?
        (fun r => ((r.id : Int) == ((MemStore.create d s).1.id : Int))) = none := by
      rw [List.find?_eq_none]
      intro r hr
      have := h.1 r hr
      simp only [beq_eq_false_iff_ne, ne_eq, Int.natCast_inj]
      simp [RecFields.withId, MemStore.create]
      omega
    simp only [MemStore.get_by_id, MemStore.create, List.find?_append]
    simp only [MemStore.create] at hnone
    rw [hnone]
    simp [RecFields.withId]

theorem sql_create_spec (s : SqlState) (h : SqlInv s) (d : RecFields) :
    (SqliteStore.create d s).1.id = max s.seq (maxId s.rows) + 1
    ∧ (SqliteStore.create d s).1.id ∉ s.rows.map (·.id)
    ∧ SqliteStore.get_by_id ((SqliteStore.create d s).1.id : Int)
        (SqliteStore.create d s).2 = some (SqliteStore.create d s).1 := by
  refine ⟨rfl, ?_, ?_⟩
  · intro hmem
    obtain ⟨r, hr, hid⟩ := List.mem_map.mp hmem
    have h1 : r.id ≤ max s.seq (maxId s.rows) :=
      le_trans (h.1 r hr) (le_max_left _ _)
    have hid' : r.id = max s.seq (maxId s.rows) + 1 := hid
    omega
  · have hnone : s.rows.find?
        (fun r => ((r.id : Int) == ((SqliteStore.create d s).1.id : Int))) = none := by
      rw [List.find?_eq_none]
      intro r hr
      have h1 : r.id ≤ max s.seq (maxId s.rows) :=
        le_trans (h.1 r hr) (le_max_left _ _)
      simp only [beq_eq_false_iff_ne, ne_eq, Int.natCast_inj]
      simp [RecFields.withId, SqliteStore.create]
      omega
    simp only [SqliteStore.get_by_id, SqliteStore.create, List.find?_append]
    simp only [SqliteStore.create] at hnone
    rw [hnone]
    simp [RecFields.withId]

/-- C5: along every sequence of create/update/delete operations from
the initial state, both backends keep identifiers unique; the
identifier counter never decreases; every create assigns an
identifier unused in the current state and an immediate `get_by_id`
on it returns the created record; and any record present at any point
has an identifier strictly below the one any later create assigns —
identifiers are never reused, also after deletion. -/
theorem ids_unique_fresh_monotone :
    ∀ ops : List Op,
      MemInv (MemStore.run ops)
      ∧ SqlInv (SqliteStore.run ops)
      ∧ (∀ ops', (MemStore.run ops).next_id ≤ (MemStore.run (ops ++ ops')).next_id)
      ∧ (∀ ops', (SqliteStore.run ops).seq ≤ (SqliteStore.run (ops ++ ops')).seq)
      ∧ (∀ d, (MemStore.create d (MemStore.run ops)).1.id ∉
            (MemStore.run ops).recipes.map (·.id)
          ∧ MemStore.get_by_id ((MemStore.create d (MemStore.run ops)).1.id : Int)
              (MemStore.create d (MemStore.run ops)).2 =
            some (MemStore.create d (MemStore.run ops)).1)
      ∧ (∀ d, (SqliteStore.create d (SqliteStore.run ops)).1.id ∉
            (SqliteStore.run ops).rows.map (·.id)
          ∧ SqliteStore.get_by_id
              ((SqliteStore.create d (SqliteStore.run ops)).1.id : Int)
              (SqliteStore.create d (SqliteStore.run ops)).2 =
            some (SqliteStore.create d (SqliteStore.run ops)).1)
      ∧ (∀ ops' d r, r ∈ (MemStore.run ops).recipes →
          r.id < (MemStore.create d (MemStore.run (ops ++ ops'))).1.id)
      ∧ (∀ ops' d r, r ∈ (SqliteStore.run ops).rows →
          r.id < (SqliteStore.create d (SqliteStore.run (ops ++ ops'))).1.id) := by
  intro ops
  have hminv : MemInv (MemStore.run ops) := mem_foldl_inv ops MemStore.init mem_inv_init
  have hsinv : SqlInv (SqliteStore.run ops) := sql_foldl_inv ops SqliteStore.init sql_inv_init
  have hmmono : ∀ ops', (MemStore.run ops).next_id ≤ (MemStore.run (ops ++ ops')).next_id := by
    intro ops'
    simp only [MemStore.run, List.foldl_append]
    exact mem_foldl_next_id_mono ops' _
  have hsmono : ∀ ops', (SqliteStore.run ops).seq ≤ (SqliteStore.run (ops ++ ops')).seq := by
    intro ops'
    simp only [SqliteStore.run, List.foldl_append]
    exact sql_foldl_seq_mono ops' _
  refine ⟨hminv, hsinv, hmmono, hsmono, ?_, ?_, ?_, ?_⟩
  · intro d
    exact ⟨(mem_create_spec _ hminv d).2.1, (mem_create_spec _ hminv d).2.2⟩
  · intro d
    exact ⟨(sql_create_spec _ hsinv d).2.1, (sql_create_spec _ hsinv d).2.2⟩
  · intro ops' d r hr
    have h1 : r.id < (MemStore.run ops).next_id := hminv.1 r hr
    have h2 := hmmono ops'
    have h3 : (MemStore.create d (MemStore.run (ops ++ ops'))).1.id =
        (MemStore.run (ops ++ ops')).next_id := rfl
    omega
  · intro ops' d r hr
    have h1 : r.id ≤ (SqliteStore.run ops).seq := hsinv.1 r hr
    have h2 := hsmono ops'
    have h3 : (SqliteStore.create d (SqliteStore.run (ops ++ ops'))).1.id =
        max (SqliteStore.run (ops ++ ops')).seq
          (maxId (SqliteStore.run (ops ++ ops')).rows) + 1 := rfl
    have h4 : (SqliteStore.run (ops ++ ops')).seq ≤
        max (SqliteStore.run (ops ++ ops')).seq
          (maxId (SqliteStore.run (ops ++ ops')).rows) := le_max_left _ _
    omega

/-- C5 witness: freshness and immediate lookup of a create on each
seeded initial state, and an identifier held initially staying below
a create performed after a later delete. -/
theorem ids_unique_fresh_monotone_witness :
    ((MemStore.create sampleFields (MemStore.run [])).1.id ∉
        (MemStore.run []).recipes.map (·.id)
      ∧ MemStore.get_by_id
          ((MemStore.create sampleFields (MemStore.run [])).1.id : Int)
          (MemStore.create sampleFields (MemStore.run [])).2 =
        some (MemStore.create sampleFields (MemStore.run [])).1)
    ∧ carbonaraRec.id <
        (MemStore.create sampleFields (MemStore.run ([] ++ [Op.delete 1]))).1.id
    ∧ curryRec.id <
        (SqliteStore.create sampleFields (SqliteStore.run ([] ++ [Op.delete 2]))).1.id :=
  ⟨(ids_unique_fresh_monotone []).2.2.2.2.1 sampleFields,
   (ids_unique_fresh_monotone []).2.2.2.2.2.2.1 [Op.delete 1] sampleFields
     carbonaraRec (by decide),
   (ids_unique_fresh_monotone []).2.2.2.2.2.2.2 [Op.delete 2] sampleFields
     curryRec (by decide)⟩

theorem lowerChar_toNat_of_upper (c : Char)
    (h : 65 ≤ c.toNat ∧ c.toNat ≤ 90) :
    (lowerChar c).toNat = c.toNat + 32 := by
  unfold lowerChar
  rw [if_pos h]
  have hv : (c.toNat + 32).isValidChar := Or.inl (by omega)
  rw [Char.ofNat, dif_pos hv]
  rfl

theorem lowerChar_fix_low {c w : Char} (hw : w.toNat < 97)
    (h : lowerChar c = w) : c = w := by
  by_cases hc : 65 ≤ c.toNat ∧ c.toNat ≤ 90
  · have ht := lowerChar_toNat_of_upper c hc
    rw [h] at ht
    omega
  · unfold lowerChar at h
    rwa [if_neg hc] at h

theorem lowerChar_pct : lowerChar '%' = '%' := by decide

theorem lowerChar_us : lowerChar '_' = '_' := by decide

theorem likeMatch_congr_lower :
    ∀ p p' : List Char, lowerL p = lowerL p' →
      ∀ s, likeMatch p s = likeMatch p' s := by
  intro p
  induction p with
  | nil =>
    intro p' h s
    cases p' with
    | nil => rfl
    | cons b ps' => simp [lowerL] at h
  | cons a ps ih =>
    intro p' h s
    cases p' with
    | nil => simp [lowerL] at h
    | cons b ps' =>
      simp only [lowerL, List.map_cons, List.cons.injEq] at h
      obtain ⟨hab, ht⟩ := h
      have iht := ih ps' ht
      by_cases ha : a = '%'
      · have hb : b = '%' := by
          refine lowerChar_fix_low (by decide) ?_
          rw [← hab, ha]
          exact lowerChar_pct
        subst ha
        subst hb
        simp only [likeMatch, if_pos rfl]
        have hfun : (fun n => likeMatch ps (s.drop n)) =
            (fun n => likeMatch ps' (s.drop n)) :=
          funext fun n => iht (s.drop n)
        rw [hfun]
        simp
      · have hb : b ≠ '%' := by
          intro hbe
          refine ha (lowerChar_fix_low (w := '%') (by decide) ?_)
          rw [hab, hbe]
          exact lowerChar_pct
        simp only [likeMatch, if_neg ha, if_neg hb]
        cases s with
        | nil => rfl
        | cons c0 s' =>
          by_cases hau : a = '_'
          · have hbu : b = '_' := by
              refine lowerChar_fix_low (by decide) ?_
              rw [← hab, hau]
              exact lowerChar_us
            subst hau
            subst hbu
            simp [iht s']
          · have hbu : b ≠ '_' := by
              intro hbe
              refine hau (lowerChar_fix_low (w := '_') (by decide) ?_)
              rw [hab, hbe]
              exact lowerChar_us
            simp only [if_neg hau, if_neg hbu, hab, iht s']

theorem likeMatch_pct_iff (p s : List Char) :
    likeMatch ('%' :: p) s = true ↔ ∃ n, likeMatch p (s.drop n) = true := by
  have h : likeMatch ('%' :: p) s =
      (List.range (s.length + 1)).any (fun n => likeMatch p (s.drop n)) := by
    simp [likeMatch]
  rw [h, List.any_eq_true]
  constructor
  · rintro ⟨n, _, hn⟩
    exact ⟨n, hn⟩
  · rintro ⟨n, hn⟩
    by_cases hcase : n ≤ s.length
    · exact ⟨n, List.mem_range.mpr (by omega), hn⟩
    · refine ⟨s.length, List.mem_range.mpr (Nat.lt_succ_self _), ?_⟩
      have h1 : s.drop n = [] := List.drop_eq_nil_of_le (by omega)
      have h2 : s.drop s.length = [] := List.drop_eq_nil_of_le (le_refl _)
      rw [h2, ← h1]
      exact hn

theorem likeMatch_append_pct :
    ∀ q : List Char, (∀ c ∈ q, c ≠ '%' ∧ c ≠ '_') →
      ∀ s, likeMatch (q ++ ['%']) s = beginsWith (lowerL q) (lowerL s) := by
  intro q
  induction q with
  | nil =>
    intro _ s
    simp only [List.nil_append]
    have h1 : likeMatch ['%'] s = true :=
      (likeMatch_pct_iff [] s).mpr
        ⟨s.length, by simp [List.drop_length, likeMatch]⟩
    rw [h1]
    rfl
  | cons a q ih =>
    intro hq s
    have ha := hq a (List.mem_cons_self a q)
    have hq' : ∀ c ∈ q, c ≠ '%' ∧ c ≠ '_' :=
      fun c hc => hq c (List.mem_cons_of_mem a hc)
    cases s with
    | nil =>
      simp only [List.cons_append, likeMatch, if_neg ha.1]
      rfl
    | cons b s' =>
      simp only [List.cons_append, likeMatch, if_neg ha.1, if_neg ha.2,
        List.append_eq]
      rw [ih hq' s']
      rfl

theorem containsSub_iff (n : List Char) :
    ∀ h : List Char,
      containsSub n h = true ↔ ∃ k, beginsWith n (h.drop k) = true := by
  intro h
  induction h with
  | nil =>
    simp only [containsSub]
    constructor
    · intro hb
      exact ⟨0, hb⟩
    · rintro ⟨k, hk⟩
      rwa [List.drop_nil] at hk
  | cons c t ih =>
    simp only [containsSub, Bool.or_eq_true]
    constructor
    · rintro (hb | hc)
      · exact ⟨0, hb⟩
      · obtain ⟨k, hk⟩ := ih.mp hc
        exact ⟨k + 1, hk⟩
    · rintro ⟨k, hk⟩
      cases k with
      | zero => exact Or.inl hk
      | succ k => exact Or.inr (ih.mpr ⟨k, hk⟩)

theorem likeMatch_pattern_eq_containsSub (q s : List Char)
    (hq : ∀ c ∈ q, c ≠ '%' ∧ c ≠ '_') :
    likeMatch ('%' :: (q ++ ['%'])) s = containsSub (lowerL q) (lowerL s) := by
  rw [Bool.eq_iff_iff, likeMatch_pct_iff, containsSub_iff]
  constructor
  · rintro ⟨n, hn⟩
    rw [likeMatch_append_pct q hq] at hn
    refine ⟨n, ?_⟩
    simp only [lowerL] at hn ⊢
    rwa [List.map_drop] at hn
  · rintro ⟨k, hk⟩
    refine ⟨k, ?_⟩
    rw [likeMatch_append_pct q hq]
    simp only [lowerL] at hk ⊢
    rwa [List.map_drop]

theorem mem_search_eval (q : String) (s : MemState) (hq : q ≠ "") :
    MemStore.search q s =
      s.recipes.filter
        (fun r => containsSub (lowerL q.data) (lowerL r.title.data)) := by
  simp [MemStore.search, hq]

theorem sqlite_search_eval (q : String) (st : SqlState) (hq : q ≠ "") :
    SqliteStore.search q st =
      (sortById st.rows).filter
        (fun r => likeMatch ('%' :: (q.data ++ ['%'])) r.title.data) := by
  simp [SqliteStore.search, hq]

/-- C3 counterexample: the claim fails on the durable backend. At
query `"_"` the durable store returns both seeded records (the LIKE
pattern `%_%` matches any non-empty title) although neither title
contains `"_"` as a substring, while the in-memory store returns
nothing. -/
theorem sqlite_like_wildcard_counterexample :
    SqliteStore.search "_" SqliteStore.init = [carbonaraRec, curryRec]
    ∧ containsSub (lowerL "_".data) (lowerL carbonaraRec.title.data) = false
    ∧ containsSub (lowerL "_".data) (lowerL curryRec.title.data) = false
    ∧ MemStore.search "_" MemStore.init = [] := by
  decide

/-- C3 (amended): for every non-empty query, the in-memory backend
returns exactly the stored records whose title contains the query as
a case-insensitive substring, and queries equal up to letter case
give identical results on both backends; the durable backend matches
titles against the SQL LIKE pattern `%query%`, in which `%` and `_`
act as wildcards, and coincides with the case-insensitive-substring
criterion exactly for queries containing neither `%` nor `_`. -/
theorem search_title_substring_amended :
    ∀ (q : String) (s : MemState) (st : SqlState),
      q ≠ "" →
      (MemStore.search q s =
        s.recipes.filter
          (fun r => containsSub (lowerL q.data) (lowerL r.title.data)))
      ∧ (∀ r : Rec, r ∈ MemStore.search q s ↔
          r ∈ s.recipes ∧
            containsSub (lowerL q.data) (lowerL r.title.data) = true)
      ∧ (∀ q' : String, q' ≠ "" → lowerL q.data = lowerL q'.data →
          MemStore.search q s = MemStore.search q' s
          ∧ SqliteStore.search q st = SqliteStore.search q' st)
      ∧ ((∀ c ∈ q.data, c ≠ '%' ∧ c ≠ '_') →
          SqliteStore.search q st =
            (sortById st.rows).filter
              (fun r => containsSub (lowerL q.data) (lowerL r.title.data))) := by
  intro q s st hq
  refine ⟨mem_search_eval q s hq, ?_, ?_, ?_⟩
  · intro r
    rw [mem_search_eval q s hq]
    simp [List.mem_filter]
  · intro q' hq' hl
    constructor
    · rw [mem_search_eval q s hq, mem_search_eval q' s hq', hl]
    · rw [sqlite_search_eval q st hq, sqlite_search_eval q' st hq']
      congr 1
      funext r
      apply likeMatch_congr_lower
      simp only [lowerL] at hl ⊢
      simp [List.map_append, hl]
  · intro hw
    rw [sqlite_search_eval q st hq]
    congr 1
    funext r
    exact likeMatch_pattern_eq_containsSub q.data r.title.data hw

/-- C3 witness: the spec's `"CARBONARA"`/`"carbonara"` case pair on
both backends, and a wildcard-free query on the durable backend. -/
theorem search_title_substring_amended_witness :
    MemStore.search "CARBONARA" MemStore.init =
      MemStore.search "carbonara" MemStore.init
    ∧ SqliteStore.search "CARBONARA" SqliteStore.init =
        SqliteStore.search "carbonara" SqliteStore.init
    ∧ SqliteStore.search "Chicken" SqliteStore.init =
        (sortById SqliteStore.init.rows).filter
          (fun r => containsSub (lowerL "Chicken".data) (lowerL r.title.data)) :=
  ⟨((search_title_substring_amended "CARBONARA" MemStore.init SqliteStore.init
      (by decide)).2.2.1 "carbonara" (by decide) (by decide)).1,
   ((search_title_substring_amended "CARBONARA" MemStore.init SqliteStore.init
      (by decide)).2.2.1 "carbonara" (by decide) (by decide)).2,
   (search_title_substring_amended "Chicken" MemStore.init SqliteStore.init
      (by decide)).2.2.2 (by decide)⟩
